import Mathlib

/-!
Shallow embedding of the `ostring_base` OS-integration utilities:
`src/os_autolaunch.rs` (auto-launch registry with lazy initialization),
`src/os_path.rs` (typed path builder with provisioning), and
`src/os_serialport.rs` (USB serial port enumeration).

Paths are modelled Unix-style: an absolute flag plus a list of normal
components (no `.` / `..` components appear in any input we consider;
the parser drops `.` and empty components exactly as Rust's `Path`
component normalization does).
-/

set_option maxRecDepth 4096

namespace OString

/-- A filesystem path: Rust `std::path::PathBuf` restricted to normal
components.  `abs = true` renders with a leading `/`. -/
structure RPath where
  abs : Bool
  comps : List String
  deriving DecidableEq, Repr

/-- Rust `Path::parent`: drop the last component; `None` on a root or
empty path. -/
def RPath.parent (p : RPath) : Option RPath :=
  if p.comps.isEmpty then none
  else some ⟨p.abs, p.comps.dropLast⟩

/-- Rust `Path::file_name`: the last normal component. -/
def RPath.fileName (p : RPath) : Option String :=
  p.comps.getLast?

/-- Index of the last occurrence of `dot` in a name, if any. -/
def lastDotIdx [BEq α] (dot : α) (s : List α) : Option Nat :=
  match s.reverse.findIdx? (· == dot) with
  | none => none
  | some j => some (s.length - 1 - j)

/-- Rust `path.rs` `rsplit_file_at_dot`: split a file name at its last
dot into `(before, after)`; a name that is `..` or whose only dot is the
leading character yields `(whole, none)`. -/
def rsplitFileAtDot [BEq α] (dot : α) (s : List α) : Option (List α) × Option (List α) :=
  if s == [dot, dot] then (some s, none)
  else
    match lastDotIdx dot s with
    | none => (none, some s)
    | some 0 => (some s, none)
    | some (i + 1) => (some (s.take (i + 1)), some (s.drop (i + 2)))

/-- Rust `Path::extension`: `before.and(after)` of the dot split of the
file name. -/
def RPath.extension (p : RPath) : Option String :=
  match p.fileName with
  | none => none
  | some n =>
    match rsplitFileAtDot '.' n.toList with
    | (some _, some aft) => some (String.mk aft)
    | _ => none

/-- Split a character list at every occurrence of `sep` (the pieces,
in order, with separators removed). -/
def splitOnChar (sep : Char) : List Char → List (List Char)
  | [] => [[]]
  | c :: cs =>
    let r := splitOnChar sep cs
    if c = sep then [] :: r
    else
      match r with
      | [] => [[c]]
      | h :: t => (c :: h) :: t

/-- Rust `PathBuf::from(&string)`: split on `/`, dropping empty and `.`
components; a leading `/` marks the path absolute. -/
def parsePath (s : String) : RPath :=
  let cs := s.toList
  ⟨cs.head? == some '/',
   ((splitOnChar '/' cs).filter (fun c => !(c == [] || c == ['.']))).map String.mk⟩

/-- Render a path back to the string `Path::as_os_str` would hold. -/
def renderPath (p : RPath) : String :=
  if p.abs then "/" ++ String.intercalate "/" p.comps
  else String.intercalate "/" p.comps

/-- Rust `PathBuf::join`: an absolute argument replaces the base,
otherwise the components are appended. -/
def RPath.join (b s : RPath) : RPath :=
  if s.abs then s else ⟨b.abs, b.comps ++ s.comps⟩

/-- The macOS bundle walk of `Osys::init_launch` (os_autolaunch.rs
lines 38-46): three `parent()?` steps, then keep the ancestor only when
its extension is `app`. -/
def bundleWalk (p : RPath) : Option RPath :=
  match p.parent with
  | none => none
  | some p1 =>
    match p1.parent with
    | none => none
    | some p2 =>
      match p2.parent with
      | none => none
      | some p3 =>
        match p3.extension with
        | none => none
        | some ext => if ext = "app" then some p3 else none

/-- The full macOS `app_path` computation: walk from the parsed raw
path and fall back to the raw executable path (`unwrap_or(app_path)`). -/
def macosAppPath (app_path : String) : String :=
  match bundleWalk (parsePath app_path) with
  | some path => renderPath path
  | none => app_path

/-! ## PathManager (src/os_path.rs) -/

/-- `PathType` from os_path.rs. -/
inductive PathType
  | Directory
  | File
  deriving DecidableEq, Repr

/-- The error cases of os_path.rs, one per distinct `anyhow!` message
(plus `ioError` for errors propagated from `std::fs` calls). -/
inductive PErr
  | invalidJoinOnFile
  | notADirectory
  | notAFile
  | parentNotDirectory
  | ioError
  | nonUtf8
  deriving DecidableEq, Repr

/-- `PathManager` from os_path.rs. -/
structure PathManager where
  path : RPath
  path_type : PathType
  deriving DecidableEq, Repr

/-- `PathManager::dir`. -/
def PathManager.dir (p : RPath) : PathManager := ⟨p, .Directory⟩

/-- `PathManager::file`. -/
def PathManager.file (p : RPath) : PathManager := ⟨p, .File⟩

/-- `PathManager::join_dir`: error on a file-kind value, else append
and stay a directory. -/
def PathManager.join_dir (self : PathManager) (d : RPath) : Except PErr PathManager :=
  if self.path_type = .File then .error .invalidJoinOnFile
  else .ok ⟨self.path.join d, .Directory⟩

/-- `PathManager::join_file`: error on a file-kind value, else append
and become a file. -/
def PathManager.join_file (self : PathManager) (f : RPath) : Except PErr PathManager :=
  if self.path_type = .File then .error .invalidJoinOnFile
  else .ok ⟨self.path.join f, .File⟩

/-! ## Filesystem model for `ensure`

The filesystem is a finite map from paths to node kinds.  Paths with no
components (the root `/` or the process working directory) always exist
and are directories; a well-formed filesystem never lists them. -/

/-- Kind of an existing filesystem node. -/
inductive FKind
  | dir
  | file
  | other
  deriving DecidableEq, Repr

/-- A finite map from paths to node kinds (first match wins). -/
def FS := List (RPath × FKind)

instance : DecidableEq FS := inferInstanceAs (DecidableEq (List (RPath × FKind)))

/-- Look a path up in the filesystem. -/
def lookupFS (fs : FS) (p : RPath) : Option FKind :=
  (fs.find? (fun e => e.1 == p)).map (·.2)

/-- `Path::exists`. -/
def existsFS (fs : FS) (p : RPath) : Bool :=
  p.comps.isEmpty || (lookupFS fs p).isSome

/-- `Path::is_dir`. -/
def isDirFS (fs : FS) (p : RPath) : Bool :=
  p.comps.isEmpty || lookupFS fs p == some .dir

/-- `Path::is_file`. -/
def isFileFS (fs : FS) (p : RPath) : Bool :=
  lookupFS fs p == some .file

/-- Worker for `create_dir_all`: walk the component chain from the top,
descending through existing directories, creating missing ones, and
failing with an I/O error when a non-directory occupies a link. -/
def createDirAllGo (fs : FS) (abs : Bool) (done rest : List String) : Except PErr FS :=
  match rest with
  | [] => .ok fs
  | c :: cs =>
    match lookupFS fs ⟨abs, done ++ [c]⟩ with
    | some .dir => createDirAllGo fs abs (done ++ [c]) cs
    | some _ => .error .ioError
    | none => createDirAllGo ((⟨abs, done ++ [c]⟩, .dir) :: fs) abs (done ++ [c]) cs

/-- `std::fs::create_dir_all`. -/
def createDirAll (fs : FS) (p : RPath) : Except PErr FS :=
  createDirAllGo fs p.abs [] p.comps

/-- `std::fs::File::create`: truncate an existing regular file, create a
fresh one when the parent directory exists, fail otherwise. -/
def fileCreate (fs : FS) (p : RPath) : Except PErr FS :=
  match lookupFS fs p with
  | some .file => .ok fs
  | some _ => .error .ioError
  | none =>
    match p.parent with
    | some par => if isDirFS fs par then .ok ((p, .file) :: fs) else .error .ioError
    | none => .error .ioError

/-- `PathManager::ensure_dir` (os_path.rs lines 75-87). -/
def PathManager.ensure_dir (self : PathManager) (fs : FS) : Except PErr (PathManager × FS) :=
  if existsFS fs self.path then
    if !isDirFS fs self.path then .error .notADirectory
    else .ok (self, fs)
  else
    match createDirAll fs self.path with
    | .error e => .error e
    | .ok fs' => .ok (self, fs')

/-- `PathManager::ensure_file` (os_path.rs lines 90-113). -/
def PathManager.ensure_file (self : PathManager) (fs : FS) : Except PErr (PathManager × FS) :=
  if existsFS fs self.path then
    if !isFileFS fs self.path then .error .notAFile
    else .ok (self, fs)
  else
    match (match self.path.parent with
           | some par =>
             if !existsFS fs par then createDirAll fs par
             else if !isDirFS fs par then .error .parentNotDirectory
             else .ok fs
           | none => .ok fs) with
    | .error e => .error e
    | .ok fs' =>
      match fileCreate fs' self.path with
      | .error e => .error e
      | .ok fs'' => .ok (self, fs'')

/-- `PathManager::ensure` (os_path.rs lines 67-72). -/
def PathManager.ensure (self : PathManager) (fs : FS) : Except PErr (PathManager × FS) :=
  match self.path_type with
  | .Directory => self.ensure_dir fs
  | .File => self.ensure_file fs

/-! ## OS strings and identity resolution (src/os_autolaunch.rs)

The executable path returned by `std::env::current_exe` is an OS path
whose bytes need not be valid text, so its characters are modelled as
either a decoded character or an undecodable byte; `to_str` succeeds
exactly when every character decoded. -/

/-- One unit of an OS string: a decoded character or an invalid byte. -/
inductive OsChar
  | ch (c : Char)
  | bad (b : Nat)
  deriving DecidableEq, Repr

/-- An OS string (`std::ffi::OsStr`). -/
abbrev OsStr := List OsChar

/-- A path component: a normal file/directory name or a `..` step. -/
inductive PComp
  | normal (s : OsStr)
  | parentDir
  deriving DecidableEq, Repr

/-- An OS path (`std::path::PathBuf` as produced by the OS). -/
structure OsPath where
  abs : Bool
  comps : List PComp
  deriving DecidableEq, Repr

/-- The decoded characters of an OS string, when all are valid. -/
def osStrChars : OsStr → Option (List Char)
  | [] => some []
  | .ch c :: rest => (osStrChars rest).map (c :: ·)
  | .bad _ :: _ => none

/-- `OsStr::to_str`: the string, when the OS string is valid text. -/
def osToStr (s : OsStr) : Option String :=
  (osStrChars s).map String.mk

/-- `Path::file_name` on an OS path: the last component when it is a
normal name. -/
def OsPath.fileName (p : OsPath) : Option OsStr :=
  match p.comps.getLast? with
  | some (.normal s) => some s
  | _ => none

/-- `Path::file_stem`: `before.or(after)` of the dot split of the file
name. -/
def OsPath.fileStem (p : OsPath) : Option OsStr :=
  match p.fileName with
  | none => none
  | some n =>
    match rsplitFileAtDot (OsChar.ch '.') n with
    | (some bef, _) => some bef
    | (none, aft) => aft

/-- `Path::as_os_str().to_str()` on the whole path: render all
components joined by `/`, failing if any name is not valid text. -/
def renderOsPath (p : OsPath) : Option String :=
  match p.comps.mapM (fun c => match c with
    | .normal s => osToStr s
    | .parentDir => some "..") with
  | none => none
  | some strs =>
    some (if p.abs then "/" ++ String.intercalate "/" strs
          else String.intercalate "/" strs)

/-- Real OS paths have no empty components. -/
def compOK : PComp → Bool
  | .normal s => !s.isEmpty
  | .parentDir => true

/-- Well-formedness of an OS path as the OS would produce it. -/
def OsPath.wf (p : OsPath) : Bool :=
  p.comps.all compOK

/-- The identity held by an `auto_launch::AutoLaunch` handle. -/
structure AutoLaunch where
  app_name : String
  app_path : String
  deriving DecidableEq, Repr

/-- The compile-time platform choice (`cfg(target_os = ...)`). -/
inductive OS
  | windows
  | macos
  | linux
  deriving DecidableEq, Repr

/-- Linux-only context: whether a tauri `AppHandle` is installed, and
if so the `env().appimage` mount path it reports. -/
structure LinuxCtx where
  app_handle : Option (Option OsStr)
  deriving DecidableEq, Repr

/-- The implicit environment of `Osys::init_launch`: the platform, the
running executable's path, and the Linux AppImage context. -/
structure IdEnv where
  os : OS
  exe : OsPath
  linux_ctx : LinuxCtx
  deriving DecidableEq, Repr

/-- Errors of the auto-launch module: the two `anyhow!` messages of
`init_launch` plus platform API failures carried unchanged. -/
inductive AErr
  | noFileStem
  | invalidEncoding
  | platform (msg : String)
  deriving DecidableEq, Repr

/-- The identity computation of `Osys::init_launch` (os_autolaunch.rs
lines 22-69): `app_name` from the file stem, `app_path` from the full
path with per-OS normalization.  `AutoLaunchBuilder::build` cannot fail
here since both fields are always set, so the handle is the identity
pair itself. -/
def initIdentity (env : IdEnv) : Except AErr AutoLaunch :=
  match env.exe.fileStem.bind osToStr with
  | none => .error .noFileStem
  | some app_name =>
    match renderOsPath env.exe with
    | none => .error .invalidEncoding
    | some app_path0 =>
      let app_path :=
        match env.os with
        | .windows => "\"" ++ app_path0 ++ "\""
        | .macos => macosAppPath app_path0
        | .linux =>
          match env.linux_ctx.app_handle with
          | some appimage =>
            match appimage.bind osToStr with
            | some s => s
            | none => app_path0
          | none => app_path0
      .ok ⟨app_name, app_path⟩

/-! ## The registry (`Osys`) and its tokio mutex

Single-task semantics: `locked` records that the `auto_launch` mutex is
held by the running task.  `tokio::sync::Mutex` is not reentrant, so
awaiting `lock()` while `locked` never completes — modelled by the
`diverges` outcome.  `returns v st n` means the call finishes with value
`v`, leaves the registry in state `st` (the guard dropped), and ran the
executable-identity resolution `n` times. -/

/-- Results of the platform `enable`/`disable` calls on the handle. -/
structure Platform where
  enableR : Except String Unit
  disableR : Except String Unit

/-- The `Osys` singleton's state: the mutex and its `Option<AutoLaunch>`
contents. -/
structure RegState where
  locked : Bool
  auto_launch : Option AutoLaunch
  deriving DecidableEq, Repr

/-- Outcome of one registry operation. -/
inductive Outcome (α : Type)
  | diverges
  | returns (val : α) (st : RegState) (resolves : Nat)

/-- `Osys::init_launch` (os_autolaunch.rs lines 21-72): resolve the
identity (one resolution, errors propagate before the lock is touched),
then `lock().await` to install the handle — which never completes if
the mutex is already held by this task. -/
def initLaunch (env : IdEnv) (s : RegState) : Outcome (Except AErr Unit) :=
  match initIdentity env with
  | .error e => .returns (.error e) s 1
  | .ok auto =>
    if s.locked then .diverges
    else .returns (.ok ()) ⟨false, some auto⟩ 1

/-- `Osys::update_launch` (os_autolaunch.rs lines 74-90): take the
guard; when the handle is absent call `init_launch` while still holding
the guard (its final `lock().await` therefore never completes when the
identity resolved); when present, `enable()?` propagates platform
errors and `disable()`'s result is discarded by `match _ => {}`. -/
def updateLaunch (env : IdEnv) (pf : Platform) (enable : Bool) (s : RegState) :
    Outcome (Except AErr Unit) :=
  if s.locked then .diverges
  else
    match s.auto_launch with
    | none =>
      match initIdentity env with
      | .error e => .returns (.error e) ⟨false, none⟩ 1
      | .ok _ => .diverges
    | some a =>
      match enable with
      | true =>
        match pf.enableR with
        | .ok _ => .returns (.ok ()) ⟨false, some a⟩ 0
        | .error m => .returns (.error (.platform m)) ⟨false, some a⟩ 0
      | false => .returns (.ok ()) ⟨false, some a⟩ 0

/-! ## Serial port enumeration (src/os_serialport.rs) -/

/-- `serialport::SerialPortType`, with the one field the code reads. -/
inductive SerialPortType
  | usbPort (manufacturer : Option String)
  | pciPort
  | bluetoothPort
  | unknownPort
  deriving DecidableEq, Repr

/-- One entry of `serialport::available_ports()`. -/
structure SPortInfo where
  port_name : String
  port_type : SerialPortType
  deriving DecidableEq, Repr

/-- The `PortInfo` struct of os_serialport.rs. -/
structure PortInfo where
  id : Nat
  label : String
  desc : String
  deriving DecidableEq, Repr

/-- `serial_port_list` (os_serialport.rs lines 11-27), over the result
of the underlying enumeration: empty on error, else the USB ports with
their enumeration index as `id` and the manufacturer (or `"unknown"`)
as `desc`. -/
def serial_port_list (avail : Except String (List SPortInfo)) : List PortInfo :=
  match avail with
  | .error _ => []
  | .ok ports =>
    ports.enum.filterMap fun ip =>
      match ip.2.port_type with
      | .usbPort m => some ⟨ip.1, ip.2.port_name, m.getD "unknown"⟩
      | _ => none

/-- No non-empty prefix of the component chain of `p` is occupied by a
non-directory: the chain can be created. -/
def ChainFree (fs : FS) (p : RPath) : Prop :=
  ∀ pre suf, pre ≠ [] → pre ++ suf = p.comps →
    lookupFS fs ⟨p.abs, pre⟩ = none ∨ lookupFS fs ⟨p.abs, pre⟩ = some FKind.dir

/-! ## Shared lemmas -/

theorem lookupFS_cons (q : RPath) (k : FKind) (fs : FS) (r : RPath) :
    lookupFS ((q, k) :: fs) r = if q = r then some k else lookupFS fs r := by
  by_cases h : q = r
  · subst h; simp [lookupFS, List.find?_cons_of_pos]
  · rw [if_neg h]
    unfold lookupFS
    rw [List.find?_cons_of_neg]
    simp [h]

theorem rpath_mk_ne_of_length {a : Bool} {l1 l2 : List String}
    (h : l1.length ≠ l2.length) : (⟨a, l1⟩ : RPath) ≠ ⟨a, l2⟩ :=
  fun heq => h (congrArg (fun r : RPath => r.comps.length) heq)

theorem rpath_ne_extend {a : Bool} {base pre : List String} (h : pre ≠ []) :
    (⟨a, base⟩ : RPath) ≠ ⟨a, base ++ pre⟩ := by
  intro heq
  have hc : base = base ++ pre := congrArg RPath.comps heq
  have hl := congrArg List.length hc
  rw [List.length_append] at hl
  have hz : pre.length = 0 := by omega
  exact h (List.length_eq_zero.mp hz)

theorem RPath.parent_concat (a : Bool) (l : List String) (x : String) :
    RPath.parent ⟨a, l ++ [x]⟩ = some ⟨a, l⟩ := by
  simp [RPath.parent]

theorem createDirAllGo_ok (a : Bool) :
    ∀ (rest done : List String) (fs : FS),
      (∀ pre suf, pre ≠ [] → pre ++ suf = rest →
         lookupFS fs ⟨a, done ++ pre⟩ = none ∨ lookupFS fs ⟨a, done ++ pre⟩ = some .dir) →
      ∃ fs', createDirAllGo fs a done rest = .ok fs'
        ∧ (∀ pre suf, pre ≠ [] → pre ++ suf = rest →
             lookupFS fs' ⟨a, done ++ pre⟩ = some .dir)
        ∧ (∀ q : RPath, (∀ pre suf, pre ≠ [] → pre ++ suf = rest → q ≠ ⟨a, done ++ pre⟩) →
             lookupFS fs' q = lookupFS fs q) := by
  intro rest
  induction rest with
  | nil =>
    intro done fs _
    refine ⟨fs, rfl, ?_, ?_⟩
    · intro pre suf h1 h2
      exact absurd (List.append_eq_nil.mp h2).1 h1
    · intro q _; rfl
  | cons c cs ih =>
    intro done fs hfree
    have hassoc : ∀ pre : List String, done ++ (c :: pre) = (done ++ [c]) ++ pre := by
      intro pre; simp
    have hq := hfree [c] cs (by simp) (by simp)
    rcases hq with hnone | hdir
    · -- the link is missing: it gets created, then the rest of the chain
      have hfree1 : ∀ pre suf, pre ≠ [] → pre ++ suf = cs →
          lookupFS ((⟨a, done ++ [c]⟩, FKind.dir) :: fs) ⟨a, (done ++ [c]) ++ pre⟩ = none
          ∨ lookupFS ((⟨a, done ++ [c]⟩, FKind.dir) :: fs) ⟨a, (done ++ [c]) ++ pre⟩
              = some .dir := by
        intro pre suf h1 h2
        rw [lookupFS_cons, if_neg (rpath_ne_extend h1)]
        have := hfree (c :: pre) suf (by simp) (by simpa using h2)
        rwa [hassoc pre] at this
      obtain ⟨fs', hok, hpost, hpres⟩ := ih (done ++ [c]) _ hfree1
      have hstep : createDirAllGo fs a done (c :: cs)
          = createDirAllGo ((⟨a, done ++ [c]⟩, FKind.dir) :: fs) a (done ++ [c]) cs := by
        conv_lhs => rw [createDirAllGo]
        rw [hnone]
      refine ⟨fs', by rw [hstep, hok], ?_, ?_⟩
      · intro pre suf h1 h2
        obtain ⟨c', pr, rfl⟩ : ∃ c' pr, pre = c' :: pr := by
          cases pre with
          | nil => exact absurd rfl h1
          | cons x xs => exact ⟨x, xs, rfl⟩
        have hc : c = c' := by
          have := congrArg List.head? h2
          simpa using this.symm
        subst hc
        by_cases hpr : pr = []
        · subst hpr
          rw [hpres ⟨a, done ++ [c]⟩]
          · rw [lookupFS_cons, if_pos rfl]
          · intro pre' suf' h1' h2'
            exact rpath_ne_extend h1'
        · have h2' : pr ++ suf = cs := by
            have := congrArg List.tail h2
            simpa using this
          have := hpost pr suf hpr h2'
          rwa [hassoc pr]
      · intro q hq
        rw [hpres q, lookupFS_cons, if_neg]
        · intro h
          exact hq [c] cs (by simp) (by simp) h.symm
        · intro pre' suf' h1' h2'
          rw [← hassoc pre']
          exact hq (c :: pre') suf' (by simp) (by simpa using h2')
    · -- the link already exists as a directory
      have hfree1 : ∀ pre suf, pre ≠ [] → pre ++ suf = cs →
          lookupFS fs ⟨a, (done ++ [c]) ++ pre⟩ = none
          ∨ lookupFS fs ⟨a, (done ++ [c]) ++ pre⟩ = some .dir := by
        intro pre suf h1 h2
        have := hfree (c :: pre) suf (by simp) (by simpa using h2)
        rwa [hassoc pre] at this
      obtain ⟨fs', hok, hpost, hpres⟩ := ih (done ++ [c]) _ hfree1
      have hstep : createDirAllGo fs a done (c :: cs)
          = createDirAllGo fs a (done ++ [c]) cs := by
        conv_lhs => rw [createDirAllGo]
        rw [hdir]
      refine ⟨fs', by rw [hstep, hok], ?_, ?_⟩
      · intro pre suf h1 h2
        obtain ⟨c', pr, rfl⟩ : ∃ c' pr, pre = c' :: pr := by
          cases pre with
          | nil => exact absurd rfl h1
          | cons x xs => exact ⟨x, xs, rfl⟩
        have hc : c = c' := by
          have := congrArg List.head? h2
          simpa using this.symm
        subst hc
        by_cases hpr : pr = []
        · subst hpr
          rw [hpres ⟨a, done ++ [c]⟩]
          · exact hdir
          · intro pre' suf' h1' h2'
            exact rpath_ne_extend h1'
        · have h2' : pr ++ suf = cs := by
            have := congrArg List.tail h2
            simpa using this
          have := hpost pr suf hpr h2'
          rwa [hassoc pr]
      · intro q hq
        rw [hpres q]
        intro pre' suf' h1' h2'
        rw [← hassoc pre']
        exact hq (c :: pre') suf' (by simp) (by simpa using h2')

theorem createDirAll_ok (fs : FS) (p : RPath) (h : ChainFree fs p) :
    ∃ fs', createDirAll fs p = .ok fs'
      ∧ (∀ pre suf, pre ≠ [] → pre ++ suf = p.comps →
           lookupFS fs' ⟨p.abs, pre⟩ = some .dir)
      ∧ (∀ q : RPath, (∀ pre suf, pre ≠ [] → pre ++ suf = p.comps → q ≠ ⟨p.abs, pre⟩) →
           lookupFS fs' q = lookupFS fs q) := by
  obtain ⟨fs', hok, hpost, hpres⟩ := createDirAllGo_ok p.abs p.comps [] fs
    (by intro pre suf h1 h2; simpa using h pre suf h1 h2)
  refine ⟨fs', hok, ?_, ?_⟩
  · intro pre suf h1 h2
    simpa using hpost pre suf h1 h2
  · intro q hq
    apply hpres
    intro pre suf h1 h2
    simpa using hq pre suf h1 h2

/-! ## C4: the macOS bundle walk -/

theorem RPath.extension_helper_app (a : Bool) (l : List String) :
    RPath.extension ⟨a, l ++ ["Helper.app"]⟩ = some "app" := by
  simp only [RPath.extension, RPath.fileName, List.getLast?_concat]
  rfl

theorem bundleWalk_helper (a : Bool) (pre : List String) :
    bundleWalk ⟨a, pre ++ ["Helper.app", "Contents", "MacOS", "binary"]⟩ =
      some ⟨a, pre ++ ["Helper.app"]⟩ := by
  have e1 : pre ++ ["Helper.app", "Contents", "MacOS", "binary"]
      = (pre ++ ["Helper.app", "Contents", "MacOS"]) ++ ["binary"] := by simp
  have e2 : pre ++ ["Helper.app", "Contents", "MacOS"]
      = (pre ++ ["Helper.app", "Contents"]) ++ ["MacOS"] := by simp
  have e3 : pre ++ ["Helper.app", "Contents"]
      = (pre ++ ["Helper.app"]) ++ ["Contents"] := by simp
  rw [bundleWalk, e1, RPath.parent_concat]
  dsimp only
  rw [e2, RPath.parent_concat]
  dsimp only
  rw [e3, RPath.parent_concat]
  dsimp only
  rw [RPath.extension_helper_app]
  simp

/-- C4: on macOS, identity resolution walks up exactly three ancestor
directories; the spec's two concrete cases hold, any path ending in
`Helper.app/Contents/MacOS/binary` resolves to the enclosing
`Helper.app`, a failed walk falls back to the raw path without error,
and `init_launch` on macOS applies exactly this computation to the
rendered executable path. -/
theorem C4_macos_bundle_walk :
    macosAppPath "/Applications/MyApp.app/Contents/MacOS/binary" = "/Applications/MyApp.app"
    ∧ macosAppPath "/usr/local/bin/myapp" = "/usr/local/bin/myapp"
    ∧ (∀ (a : Bool) (pre : List String),
        bundleWalk ⟨a, pre ++ ["Helper.app", "Contents", "MacOS", "binary"]⟩ =
          some ⟨a, pre ++ ["Helper.app"]⟩)
    ∧ (∀ s : String, bundleWalk (parsePath s) = none → macosAppPath s = s)
    ∧ (∀ (env : IdEnv) (name s : String), env.os = OS.macos →
        env.exe.fileStem.bind osToStr = some name →
        renderOsPath env.exe = some s →
        initIdentity env = .ok ⟨name, macosAppPath s⟩) := by
  refine ⟨by decide, by decide, bundleWalk_helper, ?_, ?_⟩
  · intro s h
    simp [macosAppPath, h]
  · intro env name s h1 h2 h3
    simp [initIdentity, h1, h2, h3]

/-- Witness: the C4 theorem applied at concrete inputs. -/
theorem C4_macos_bundle_walk_witness :
    bundleWalk ⟨true, ["Applications", "MyApp.app", "Contents", "Frameworks",
        "Helper.app", "Contents", "MacOS", "binary"]⟩ =
      some ⟨true, ["Applications", "MyApp.app", "Contents", "Frameworks", "Helper.app"]⟩
    ∧ macosAppPath "relative" = "relative"
    ∧ initIdentity ⟨OS.macos,
        ⟨true, [.normal ("Applications".toList.map OsChar.ch),
                .normal ("MyApp.app".toList.map OsChar.ch),
                .normal ("Contents".toList.map OsChar.ch),
                .normal ("MacOS".toList.map OsChar.ch),
                .normal ("binary".toList.map OsChar.ch)]⟩, ⟨none⟩⟩ =
      .ok ⟨"binary", "/Applications/MyApp.app"⟩ := by
  refine ⟨?_, C4_macos_bundle_walk.2.2.2.1 "relative" (by decide), ?_⟩
  · have := C4_macos_bundle_walk.2.2.1 true
      ["Applications", "MyApp.app", "Contents", "Frameworks"]
    simpa using this
  · have := C4_macos_bundle_walk.2.2.2.2
      ⟨OS.macos,
        ⟨true, [.normal ("Applications".toList.map OsChar.ch),
                .normal ("MyApp.app".toList.map OsChar.ch),
                .normal ("Contents".toList.map OsChar.ch),
                .normal ("MacOS".toList.map OsChar.ch),
                .normal ("binary".toList.map OsChar.ch)]⟩, ⟨none⟩⟩
      "binary" "/Applications/MyApp.app/Contents/MacOS/binary" rfl (by decide) (by decide)
    rw [this, C4_macos_bundle_walk.1]

/-! ## C6, C9: join semantics -/

/-- C6: every join on a file-kind value fails with the
invalid-join-on-file error; on a directory-kind value `join_dir`
appends (platform join) and stays a directory while `join_file` becomes
a file, and for a relative segment the join really is appending the
components. -/
theorem C6_join_on_file_rejected :
    ∀ p x : RPath,
      (PathManager.file p).join_dir x = .error PErr.invalidJoinOnFile
      ∧ (PathManager.file p).join_file x = .error PErr.invalidJoinOnFile
      ∧ (PathManager.dir p).join_dir x = .ok ⟨p.join x, .Directory⟩
      ∧ (PathManager.dir p).join_file x = .ok ⟨p.join x, .File⟩
      ∧ (x.abs = false → (p.join x).comps = p.comps ++ x.comps ∧ (p.join x).abs = p.abs) := by
  intro p x
  refine ⟨rfl, rfl, rfl, rfl, fun h => ?_⟩
  simp [RPath.join, h]

/-- Witness: the C6 theorem applied at a concrete path and segment. -/
theorem C6_join_on_file_rejected_witness :
    (PathManager.file ⟨true, ["etc", "hosts"]⟩).join_dir ⟨false, ["x"]⟩
        = .error PErr.invalidJoinOnFile
    ∧ (RPath.join ⟨true, ["data"]⟩ ⟨false, ["x"]⟩).comps = ["data"] ++ ["x"] := by
  refine ⟨(C6_join_on_file_rejected ⟨true, ["etc", "hosts"]⟩ ⟨false, ["x"]⟩).1, ?_⟩
  exact ((C6_join_on_file_rejected ⟨true, ["data"]⟩ ⟨false, ["x"]⟩).2.2.2.2 rfl).1

/-- C9: joining an absolute segment onto a directory-kind value
succeeds but discards the base — the resulting path is the segment
alone; only a relative segment extends the base. -/
theorem C9_absolute_segment_replaces_base :
    ∀ b s : RPath,
      (s.abs = true →
        (PathManager.dir b).join_dir s = .ok ⟨s, .Directory⟩
        ∧ (PathManager.dir b).join_file s = .ok ⟨s, .File⟩)
      ∧ (s.abs = false →
        (PathManager.dir b).join_dir s = .ok ⟨⟨b.abs, b.comps ++ s.comps⟩, .Directory⟩
        ∧ (PathManager.dir b).join_file s = .ok ⟨⟨b.abs, b.comps ++ s.comps⟩, .File⟩) := by
  intro b s
  constructor
  · intro h
    constructor <;> simp [PathManager.join_dir, PathManager.join_file, PathManager.dir,
      RPath.join, h]
  · intro h
    constructor <;> simp [PathManager.join_dir, PathManager.join_file, PathManager.dir,
      RPath.join, h]

/-- Witness: the C9 theorem applied at a concrete base and absolute
segment. -/
theorem C9_absolute_segment_replaces_base_witness :
    (PathManager.dir ⟨true, ["home", "user"]⟩).join_dir ⟨true, ["tmp"]⟩
        = .ok ⟨⟨true, ["tmp"]⟩, .Directory⟩
    ∧ (PathManager.dir ⟨true, ["home", "user"]⟩).join_file ⟨false, ["cfg"]⟩
        = .ok ⟨⟨true, ["home", "user", "cfg"]⟩, .File⟩ :=
  ⟨((C9_absolute_segment_replaces_base ⟨true, ["home", "user"]⟩ ⟨true, ["tmp"]⟩).1 rfl).1,
   ((C9_absolute_segment_replaces_base ⟨true, ["home", "user"]⟩ ⟨false, ["cfg"]⟩).2 rfl).2⟩

/-! ## C7, C8: ensure provisioning -/

theorem existsFS_of_isDirFS (fs : FS) (p : RPath) (h : isDirFS fs p = true) :
    existsFS fs p = true := by
  unfold isDirFS at h
  unfold existsFS
  rcases Bool.or_eq_true_iff.mp h with h | h
  · simp [h]
  · have := beq_iff_eq.mp h
    simp [this]

theorem existsFS_of_isFileFS (fs : FS) (p : RPath) (h : isFileFS fs p = true) :
    existsFS fs p = true := by
  unfold isFileFS at h
  have := beq_iff_eq.mp h
  simp [existsFS, this]

theorem lookupFS_none_of_not_existsFS (fs : FS) (p : RPath)
    (h : existsFS fs p = false) : lookupFS fs p = none := by
  unfold existsFS at h
  rcases Bool.or_eq_false_iff.mp h with ⟨_, h2⟩
  exact Option.not_isSome_iff_eq_none.mp (by simp [h2])

theorem parent_shape (p par : RPath) (h : p.parent = some par) :
    p.comps ≠ [] ∧ par = ⟨p.abs, p.comps.dropLast⟩ := by
  unfold RPath.parent at h
  by_cases he : p.comps.isEmpty = true
  · rw [if_pos he] at h; cases h
  · rw [if_neg he] at h
    refine ⟨by simpa using he, (Option.some.inj h).symm⟩

/-- Counterexample to C7 as stated: a directory path that is absent is
nevertheless not created when an ancestor is occupied by a regular
file — `ensure` fails with a propagated I/O error, not by creating the
chain. -/
theorem C7_ensure_counterexample :
    existsFS [(⟨true, ["a"]⟩, FKind.file)] ⟨true, ["a", "b"]⟩ = false
    ∧ (PathManager.dir ⟨true, ["a", "b"]⟩).ensure [(⟨true, ["a"]⟩, FKind.file)]
        = .error PErr.ioError :=
  ⟨rfl, rfl⟩

/-- C7 (amended): `ensure` on a directory-kind value creates the full
directory chain when the path is absent, provided no ancestor is
occupied by a non-directory, and fails with the not-a-directory error
when a non-directory occupies the path itself; on a file-kind value it
ensures the parent chain (failing with the parent conflict error when a
non-directory occupies the parent), creates an empty file when absent,
and fails with the not-a-file error when a non-file occupies the
path. -/
theorem C7_ensure_provisioning :
    (∀ (fs : FS) (p : RPath), existsFS fs p = false → ChainFree fs p →
       ∃ fs', (PathManager.dir p).ensure fs = .ok (PathManager.dir p, fs')
         ∧ (∀ pre suf, pre ≠ [] → pre ++ suf = p.comps →
              lookupFS fs' ⟨p.abs, pre⟩ = some FKind.dir))
    ∧ (∀ (fs : FS) (p : RPath), existsFS fs p = true → isDirFS fs p = false →
        (PathManager.dir p).ensure fs = .error PErr.notADirectory)
    ∧ (∀ (fs : FS) (p : RPath), existsFS fs p = true → isFileFS fs p = false →
        (PathManager.file p).ensure fs = .error PErr.notAFile)
    ∧ (∀ (fs : FS) (p par : RPath), existsFS fs p = false → p.parent = some par →
        existsFS fs par = true → isDirFS fs par = false →
        (PathManager.file p).ensure fs = .error PErr.parentNotDirectory)
    ∧ (∀ (fs : FS) (p par : RPath), existsFS fs p = false → p.parent = some par →
        ChainFree fs par →
        ∃ fs', (PathManager.file p).ensure fs = .ok (PathManager.file p, fs')
          ∧ lookupFS fs' p = some FKind.file ∧ isDirFS fs' par = true) := by
  refine ⟨?_, ?_, ?_, ?_, ?_⟩
  · intro fs p hex hcf
    obtain ⟨fs', hok, hpost, _⟩ := createDirAll_ok fs p hcf
    refine ⟨fs', ?_, hpost⟩
    simp [PathManager.ensure, PathManager.dir, PathManager.ensure_dir, hex, hok]
  · intro fs p h1 h2
    simp [PathManager.ensure, PathManager.dir, PathManager.ensure_dir, h1, h2]
  · intro fs p h1 h2
    simp [PathManager.ensure, PathManager.file, PathManager.ensure_file, h1, h2]
  · intro fs p par h1 h2 h3 h4
    simp [PathManager.ensure, PathManager.file, PathManager.ensure_file, h1, h2, h3, h4]
  · intro fs p par hex hpp hcf
    obtain ⟨hpne, hpar⟩ := parent_shape p par hpp
    have hppos : 0 < p.comps.length := List.length_pos.mpr hpne
    have hplen : par.comps.length + 1 = p.comps.length := by
      rw [hpar]
      simp only [List.length_dropLast]
      omega
    have hpn : lookupFS fs p = none := lookupFS_none_of_not_existsFS fs p hex
    have hne_chain : ∀ pre suf : List String, pre ≠ [] → pre ++ suf = par.comps →
        p ≠ ⟨par.abs, pre⟩ := by
      intro pre suf h1 h2
      have hlen : pre.length + suf.length = par.comps.length := by
        have := congrArg List.length h2
        simpa using this
      have : pre.length < p.comps.length := by omega
      intro heq
      have := congrArg (fun r : RPath => r.comps.length) heq
      simp at this
      omega
    have hne_par : p ≠ par := by
      intro heq
      have := congrArg (fun r : RPath => r.comps.length) heq
      simp at this
      omega
    by_cases hpe : existsFS fs par = true
    · -- the parent already exists; by chain-freedom it must be a directory
      have hdirp : isDirFS fs par = true := by
        by_cases hemp : par.comps.isEmpty = true
        · simp [isDirFS, hemp]
        · have hl : (lookupFS fs par).isSome = true := by
            rcases Bool.or_eq_true_iff.mp hpe with h | h
            · exact absurd h hemp
            · exact h
          have hfree := hcf par.comps [] (by simpa using hemp) (by simp)
          have heta : (⟨par.abs, par.comps⟩ : RPath) = par := rfl
          rw [heta] at hfree
          rcases hfree with h | h
          · rw [h] at hl; simp at hl
          · simp [isDirFS, h]
      have hfc : fileCreate fs p = .ok ((p, FKind.file) :: fs) := by
        unfold fileCreate
        rw [hpn, hpp]
        simp [hdirp]
      refine ⟨(p, FKind.file) :: fs, ?_, ?_, ?_⟩
      · simp [PathManager.ensure, PathManager.file, PathManager.ensure_file, hex, hpp,
          hpe, hdirp, hfc]
      · rw [lookupFS_cons, if_pos rfl]
      · unfold isDirFS at hdirp ⊢
        rw [lookupFS_cons, if_neg hne_par]
        exact hdirp
    · -- the parent is missing; the whole chain is created first
      obtain ⟨fs', hok, hpost, hpres⟩ := createDirAll_ok fs par hcf
      have hparne : par.comps ≠ [] := by
        intro h
        apply hpe
        simp [existsFS, h]
      have hdirp : isDirFS fs' par = true := by
        have := hpost par.comps [] hparne (by simp)
        have heta : (⟨par.abs, par.comps⟩ : RPath) = par := rfl
        rw [heta] at this
        simp [isDirFS, this]
      have hpn' : lookupFS fs' p = none := by
        rw [hpres p hne_chain]
        exact hpn
      have hfc : fileCreate fs' p = .ok ((p, FKind.file) :: fs') := by
        unfold fileCreate
        rw [hpn', hpp]
        simp [hdirp]
      refine ⟨(p, FKind.file) :: fs', ?_, ?_, ?_⟩
      · have hpeb : existsFS fs par = false := by simpa using hpe
        simp [PathManager.ensure, PathManager.file, PathManager.ensure_file, hex, hpp,
          hpeb, hok, hfc]
      · rw [lookupFS_cons, if_pos rfl]
      · unfold isDirFS at hdirp ⊢
        rw [lookupFS_cons, if_neg hne_par]
        exact hdirp

/-- Witness: the C7 theorem applied at concrete filesystems and
paths. -/
theorem C7_ensure_provisioning_witness :
    (∃ fs', (PathManager.dir ⟨true, ["a", "b"]⟩).ensure ([] : FS)
        = .ok (PathManager.dir ⟨true, ["a", "b"]⟩, fs')
      ∧ (∀ pre suf, pre ≠ [] → pre ++ suf = (⟨true, ["a", "b"]⟩ : RPath).comps →
           lookupFS fs' ⟨(⟨true, ["a", "b"]⟩ : RPath).abs, pre⟩ = some FKind.dir))
    ∧ (PathManager.dir ⟨true, ["c"]⟩).ensure [(⟨true, ["c"]⟩, FKind.file)]
        = .error PErr.notADirectory
    ∧ (PathManager.file ⟨true, ["d"]⟩).ensure [(⟨true, ["d"]⟩, FKind.dir)]
        = .error PErr.notAFile
    ∧ (PathManager.file ⟨true, ["e", "f"]⟩).ensure [(⟨true, ["e"]⟩, FKind.file)]
        = .error PErr.parentNotDirectory
    ∧ (∃ fs', (PathManager.file ⟨true, ["g", "h"]⟩).ensure ([] : FS)
        = .ok (PathManager.file ⟨true, ["g", "h"]⟩, fs')
      ∧ lookupFS fs' ⟨true, ["g", "h"]⟩ = some FKind.file
      ∧ isDirFS fs' ⟨true, ["g"]⟩ = true) :=
  ⟨C7_ensure_provisioning.1 [] ⟨true, ["a", "b"]⟩ rfl
      (fun _ _ _ _ => Or.inl rfl),
   C7_ensure_provisioning.2.1 [(⟨true, ["c"]⟩, FKind.file)] ⟨true, ["c"]⟩ rfl rfl,
   C7_ensure_provisioning.2.2.1 [(⟨true, ["d"]⟩, FKind.dir)] ⟨true, ["d"]⟩ rfl rfl,
   C7_ensure_provisioning.2.2.2.1 [(⟨true, ["e"]⟩, FKind.file)] ⟨true, ["e", "f"]⟩
      ⟨true, ["e"]⟩ rfl rfl rfl rfl,
   C7_ensure_provisioning.2.2.2.2 [] ⟨true, ["g", "h"]⟩ ⟨true, ["g"]⟩ rfl rfl
      (fun _ _ _ _ => Or.inl rfl)⟩

/-- C8: when the path already exists with the correct kind, `ensure`
succeeds, leaves the filesystem unchanged, and a second call is again a
no-op success. -/
theorem C8_ensure_idempotent :
    ∀ (fs : FS) (pm : PathManager),
      (pm.path_type = .Directory → isDirFS fs pm.path = true) →
      (pm.path_type = .File → isFileFS fs pm.path = true) →
      pm.ensure fs = .ok (pm, fs)
      ∧ (pm.ensure fs).bind (fun r => r.1.ensure r.2) = .ok (pm, fs) := by
  intro fs pm hd hf
  have h1 : pm.ensure fs = .ok (pm, fs) := by
    cases hpt : pm.path_type with
    | Directory =>
      have h := hd hpt
      have hex := existsFS_of_isDirFS fs pm.path h
      simp [PathManager.ensure, hpt, PathManager.ensure_dir, hex, h]
    | File =>
      have h := hf hpt
      have hex := existsFS_of_isFileFS fs pm.path h
      simp [PathManager.ensure, hpt, PathManager.ensure_file, hex, h]
  refine ⟨h1, ?_⟩
  rw [h1]
  simpa [Except.bind] using h1

/-- Witness: the C8 theorem applied to an existing directory and an
existing file. -/
theorem C8_ensure_idempotent_witness :
    (PathManager.dir ⟨true, ["data"]⟩).ensure [(⟨true, ["data"]⟩, FKind.dir)]
        = .ok (PathManager.dir ⟨true, ["data"]⟩, [(⟨true, ["data"]⟩, FKind.dir)])
    ∧ (PathManager.file ⟨true, ["cfg"]⟩).ensure [(⟨true, ["cfg"]⟩, FKind.file)]
        = .ok (PathManager.file ⟨true, ["cfg"]⟩, [(⟨true, ["cfg"]⟩, FKind.file)]) :=
  ⟨(C8_ensure_idempotent [(⟨true, ["data"]⟩, FKind.dir)] (PathManager.dir ⟨true, ["data"]⟩)
      (fun _ => rfl) (fun h => nomatch h)).1,
   (C8_ensure_idempotent [(⟨true, ["cfg"]⟩, FKind.file)] (PathManager.file ⟨true, ["cfg"]⟩)
      (fun h => nomatch h) (fun _ => rfl)).1⟩

/-! ## C5: identity-resolution error taxonomy -/

theorem fileName_ne_nil_of_wf (p : OsPath) (hwf : p.wf = true) (n : OsStr)
    (h : p.fileName = some n) : n ≠ [] := by
  unfold OsPath.fileName at h
  cases hl : p.comps.getLast? with
  | none => rw [hl] at h; cases h
  | some c =>
    rw [hl] at h
    cases c with
    | parentDir => cases h
    | normal s =>
      have hs : s = n := by cases h; rfl
      subst hs
      have hmem : PComp.normal s ∈ p.comps := List.mem_of_mem_getLast? hl
      have := List.all_eq_true.mp hwf _ hmem
      simpa [compOK] using this

theorem rsplit_shapes (n : List α) [DecidableEq α] (d : α) :
    rsplitFileAtDot d n = (some n, none)
    ∨ rsplitFileAtDot d n = (none, some n)
    ∨ ∃ i, rsplitFileAtDot d n = (some (n.take (i + 1)), some (n.drop (i + 2))) := by
  unfold rsplitFileAtDot
  by_cases hdd : (n == [d, d]) = true
  · rw [if_pos hdd]; exact Or.inl rfl
  · rw [if_neg hdd]
    cases hidx : lastDotIdx d n with
    | none => exact Or.inr (Or.inl rfl)
    | some i =>
      cases i with
      | zero => exact Or.inl rfl
      | succ j => exact Or.inr (Or.inr ⟨j, rfl⟩)

theorem fileStem_ne_nil_of_wf (p : OsPath) (hwf : p.wf = true) (st : OsStr)
    (h : p.fileStem = some st) : st ≠ [] := by
  unfold OsPath.fileStem at h
  cases hn : p.fileName with
  | none => rw [hn] at h; cases h
  | some n =>
    rw [hn] at h
    dsimp only at h
    have hne := fileName_ne_nil_of_wf p hwf n hn
    rcases rsplit_shapes n (OsChar.ch '.') with hs | hs | ⟨i, hs⟩ <;> rw [hs] at h
    · have : n = st := by cases h; rfl
      subst this; exact hne
    · have : n = st := by cases h; rfl
      subst this; exact hne
    · have : n.take (i + 1) = st := by cases h; rfl
      subst this
      simp [List.take_eq_nil_iff, hne]

theorem osToStr_ne_empty (st : OsStr) (hne : st ≠ []) (s : String)
    (h : osToStr st = some s) : s ≠ "" := by
  unfold osToStr at h
  cases st with
  | nil => exact absurd rfl hne
  | cons c rest =>
    cases c with
    | bad b => simp [osStrChars] at h
    | ch c =>
      simp only [osStrChars] at h
      cases hr : osStrChars rest with
      | none => rw [hr] at h; simp at h
      | some cs =>
        rw [hr] at h
        simp at h
        intro hemp
        rw [hemp] at h
        have := congrArg String.data h
        simp at this

/-- Counterexample to C5 as stated: an executable path whose file stem
is not representable as text fails with the no-file-stem error, not the
distinct encoding error the claim requires for paths that are not
representable as text. -/
theorem C5_identity_errors_counterexample :
    renderOsPath ⟨true, [PComp.normal [OsChar.ch 'a', OsChar.bad 255]]⟩ = none
    ∧ initIdentity ⟨OS.linux, ⟨true, [PComp.normal [OsChar.ch 'a', OsChar.bad 255]]⟩, ⟨none⟩⟩
        = .error AErr.noFileStem
    ∧ AErr.noFileStem ≠ AErr.invalidEncoding :=
  ⟨rfl, rfl, by decide⟩

/-- C5 (amended): identity resolution yields a non-empty `app_name`
whenever the executable path has a non-empty file stem representable as
text (failing, if at all, only with the encoding error on the full
path); it fails with the no-file-stem error when the path has no
extractable base name; a path not representable as text fails with the
distinct encoding error only when its file stem is representable —
when the stem itself is not representable the failure is reported as
the no-file-stem error. -/
theorem C5_identity_errors :
    (∀ (env : IdEnv) (st : OsStr) (s : String), env.exe.wf = true →
       env.exe.fileStem = some st → osToStr st = some s →
       s ≠ "" ∧ ((∃ ap, initIdentity env = .ok ap ∧ ap.app_name = s)
         ∨ initIdentity env = .error AErr.invalidEncoding))
    ∧ (∀ env : IdEnv, env.exe.fileName = none →
        initIdentity env = .error AErr.noFileStem)
    ∧ (∀ (env : IdEnv) (st : OsStr), env.exe.fileStem = some st →
        osToStr st = none → initIdentity env = .error AErr.noFileStem)
    ∧ (∀ (env : IdEnv) (st : OsStr) (s : String), env.exe.fileStem = some st →
        osToStr st = some s → renderOsPath env.exe = none →
        initIdentity env = .error AErr.invalidEncoding) := by
  refine ⟨?_, ?_, ?_, ?_⟩
  · intro env st s hwf h2 h3
    refine ⟨osToStr_ne_empty st (fileStem_ne_nil_of_wf _ hwf st h2) s h3, ?_⟩
    have hb : env.exe.fileStem.bind osToStr = some s := by
      rw [h2]; simpa using h3
    unfold initIdentity
    rw [hb]
    cases hr : renderOsPath env.exe with
    | none => exact Or.inr rfl
    | some ap0 => exact Or.inl ⟨_, rfl, rfl⟩
  · intro env h
    have hst : env.exe.fileStem = none := by
      unfold OsPath.fileStem
      rw [h]
    simp [initIdentity, hst]
  · intro env st h2 h3
    have hb : env.exe.fileStem.bind osToStr = none := by
      rw [h2]; simpa using h3
    simp [initIdentity, hb]
  · intro env st s h2 h3 h4
    have hb : env.exe.fileStem.bind osToStr = some s := by
      rw [h2]; simpa using h3
    simp [initIdentity, hb, h4]

/-- Witness: the C5 theorem applied at four concrete executable
paths. -/
theorem C5_identity_errors_witness :
    ("app" ≠ "" ∧ ((∃ ap, initIdentity ⟨OS.linux,
          ⟨true, [PComp.normal ("usr".toList.map OsChar.ch),
                  PComp.normal ("app".toList.map OsChar.ch)]⟩, ⟨none⟩⟩ = .ok ap
        ∧ ap.app_name = "app")
      ∨ initIdentity ⟨OS.linux,
          ⟨true, [PComp.normal ("usr".toList.map OsChar.ch),
                  PComp.normal ("app".toList.map OsChar.ch)]⟩, ⟨none⟩⟩
          = .error AErr.invalidEncoding))
    ∧ initIdentity ⟨OS.linux, ⟨true, []⟩, ⟨none⟩⟩ = .error AErr.noFileStem
    ∧ initIdentity ⟨OS.linux, ⟨true, [PComp.normal [OsChar.bad 254]]⟩, ⟨none⟩⟩
        = .error AErr.noFileStem
    ∧ initIdentity ⟨OS.linux, ⟨true, [PComp.normal [OsChar.bad 253],
          PComp.normal ("app".toList.map OsChar.ch)]⟩, ⟨none⟩⟩
        = .error AErr.invalidEncoding :=
  ⟨C5_identity_errors.1 _ ("app".toList.map OsChar.ch) "app" rfl rfl rfl,
   C5_identity_errors.2.1 _ rfl,
   C5_identity_errors.2.2.1 _ [OsChar.bad 254] rfl rfl,
   C5_identity_errors.2.2.2 _ ("app".toList.map OsChar.ch) "app" rfl rfl rfl⟩

/-! ## C1, C2, C3: the auto-launch registry -/

/-- C1 (code-bug evaluation): on the uninitialized singleton with a
perfectly resolvable executable identity, the first `update_launch`
call — with either flag — diverges: `update_launch` still holds the
mutex guard while `init_launch` awaits the same non-reentrant tokio
mutex, so the call never returns. -/
theorem C1_first_update_launch_deadlocks :
    initIdentity ⟨OS.linux,
        ⟨true, [PComp.normal ("usr".toList.map OsChar.ch),
                PComp.normal ("local".toList.map OsChar.ch),
                PComp.normal ("bin".toList.map OsChar.ch),
                PComp.normal ("app".toList.map OsChar.ch)]⟩, ⟨none⟩⟩
      = .ok ⟨"app", "/usr/local/bin/app"⟩
    ∧ updateLaunch ⟨OS.linux,
        ⟨true, [PComp.normal ("usr".toList.map OsChar.ch),
                PComp.normal ("local".toList.map OsChar.ch),
                PComp.normal ("bin".toList.map OsChar.ch),
                PComp.normal ("app".toList.map OsChar.ch)]⟩, ⟨none⟩⟩
        ⟨.ok (), .ok ()⟩ false ⟨false, none⟩ = .diverges
    ∧ updateLaunch ⟨OS.linux,
        ⟨true, [PComp.normal ("usr".toList.map OsChar.ch),
                PComp.normal ("local".toList.map OsChar.ch),
                PComp.normal ("bin".toList.map OsChar.ch),
                PComp.normal ("app".toList.map OsChar.ch)]⟩, ⟨none⟩⟩
        ⟨.ok (), .ok ()⟩ true ⟨false, none⟩ = .diverges :=
  ⟨rfl, rfl, rfl⟩

/-- C2: with the handle installed, `update_launch(false)` returns
success for every platform deregistration outcome (the `match _ => {}`
discards it), `update_launch(true)` propagates platform enable errors
unchanged, and in the uninstalled state errors of the lazy
initialization step propagate to the caller. -/
theorem C2_disable_swallows_enable_propagates :
    (∀ (env : IdEnv) (pf : Platform) (a : AutoLaunch),
       updateLaunch env pf false ⟨false, some a⟩ = .returns (.ok ()) ⟨false, some a⟩ 0)
    ∧ (∀ (env : IdEnv) (pf : Platform) (a : AutoLaunch) (m : String),
        pf.enableR = .error m →
        updateLaunch env pf true ⟨false, some a⟩
          = .returns (.error (.platform m)) ⟨false, some a⟩ 0)
    ∧ (∀ (env : IdEnv) (pf : Platform) (en : Bool) (e : AErr),
        initIdentity env = .error e →
        updateLaunch env pf en ⟨false, none⟩ = .returns (.error e) ⟨false, none⟩ 1) := by
  refine ⟨?_, ?_, ?_⟩
  · intro env pf a
    rfl
  · intro env pf a m h
    simp [updateLaunch, h]
  · intro env pf en e h
    simp [updateLaunch, h]

/-- Witness: the C2 theorem applied with a failing platform enable call
and a failing identity resolution. -/
theorem C2_disable_swallows_enable_propagates_witness :
    updateLaunch ⟨OS.linux, ⟨true, []⟩, ⟨none⟩⟩ ⟨.ok (), .error "denied"⟩ false
        ⟨false, some ⟨"app", "/a"⟩⟩ = .returns (.ok ()) ⟨false, some ⟨"app", "/a"⟩⟩ 0
    ∧ updateLaunch ⟨OS.linux, ⟨true, []⟩, ⟨none⟩⟩ ⟨.error "denied", .ok ()⟩ true
        ⟨false, some ⟨"app", "/a"⟩⟩
        = .returns (.error (.platform "denied")) ⟨false, some ⟨"app", "/a"⟩⟩ 0
    ∧ updateLaunch ⟨OS.linux, ⟨true, []⟩, ⟨none⟩⟩ ⟨.ok (), .ok ()⟩ false ⟨false, none⟩
        = .returns (.error AErr.noFileStem) ⟨false, none⟩ 1 :=
  ⟨C2_disable_swallows_enable_propagates.1 _ _ _,
   C2_disable_swallows_enable_propagates.2.1 _ _ _ "denied" rfl,
   C2_disable_swallows_enable_propagates.2.2 _ _ false AErr.noFileStem rfl⟩

/-- Counterexample to C3 as stated: with a handle already installed,
the registry operation `init_launch` runs the identity resolution again
(one more resolution, not zero) and replaces the cached handle. -/
theorem C3_identity_recomputed_counterexample :
    initLaunch ⟨OS.linux,
        ⟨true, [PComp.normal ("usr".toList.map OsChar.ch),
                PComp.normal ("local".toList.map OsChar.ch),
                PComp.normal ("bin".toList.map OsChar.ch),
                PComp.normal ("app".toList.map OsChar.ch)]⟩, ⟨none⟩⟩
      ⟨false, some ⟨"old", "/old/path"⟩⟩
      = .returns (.ok ()) ⟨false, some ⟨"app", "/usr/local/bin/app"⟩⟩ 1 :=
  rfl

/-- C3 (amended): once a handle is installed, `update_launch` reuses it
and performs no identity resolution; `init_launch`, however, performs
the resolution anew on every invocation and overwrites the cached
handle with the freshly built one. -/
theorem C3_identity_cached_for_update_launch :
    (∀ (env : IdEnv) (pf : Platform) (en : Bool) (a : AutoLaunch),
       ∃ v, updateLaunch env pf en ⟨false, some a⟩ = .returns v ⟨false, some a⟩ 0)
    ∧ (∀ (env : IdEnv) (s : RegState) (a' : AutoLaunch), s.locked = false →
        initIdentity env = .ok a' →
        initLaunch env s = .returns (.ok ()) ⟨false, some a'⟩ 1)
    ∧ (∀ (env : IdEnv) (s : RegState) (e : AErr),
        initIdentity env = .error e →
        initLaunch env s = .returns (.error e) s 1) := by
  refine ⟨?_, ?_, ?_⟩
  · intro env pf en a
    cases en with
    | true =>
      cases h : pf.enableR with
      | ok u => exact ⟨.ok (), by simp [updateLaunch, h]⟩
      | error m => exact ⟨.error (.platform m), by simp [updateLaunch, h]⟩
    | false => exact ⟨.ok (), rfl⟩
  · intro env s a' h1 h2
    simp [initLaunch, h1, h2]
  · intro env s e h
    simp [initLaunch, h]

/-- Witness: the C3 theorem applied on an installed handle and a fresh
initialization. -/
theorem C3_identity_cached_for_update_launch_witness :
    (∃ v, updateLaunch ⟨OS.linux, ⟨true, []⟩, ⟨none⟩⟩ ⟨.ok (), .ok ()⟩ true
        ⟨false, some ⟨"app", "/a"⟩⟩ = .returns v ⟨false, some ⟨"app", "/a"⟩⟩ 0)
    ∧ initLaunch ⟨OS.linux,
        ⟨true, [PComp.normal ("app".toList.map OsChar.ch)]⟩, ⟨none⟩⟩ ⟨false, none⟩
        = .returns (.ok ()) ⟨false, some ⟨"app", "/app"⟩⟩ 1
    ∧ initLaunch ⟨OS.linux, ⟨true, []⟩, ⟨none⟩⟩ ⟨false, none⟩
        = .returns (.error AErr.noFileStem) ⟨false, none⟩ 1 :=
  ⟨C3_identity_cached_for_update_launch.1 _ _ true ⟨"app", "/a"⟩,
   C3_identity_cached_for_update_launch.2.1 _ ⟨false, none⟩ ⟨"app", "/app"⟩ rfl rfl,
   C3_identity_cached_for_update_launch.2.2 _ ⟨false, none⟩ AErr.noFileStem rfl⟩

/-! ## C10: serial port enumeration -/

/-- C10: `serial_port_list` is total — an enumeration failure yields
the empty list; on success the result is exactly the USB-type ports,
each entry's id being the port's index in the full enumeration and its
description falling back to "unknown" without a manufacturer; a
concrete interleaving shows the ids may be non-contiguous. -/
theorem C10_serial_port_list_total :
    (∀ e : String, serial_port_list (.error e) = [])
    ∧ (∀ (ports : List SPortInfo) (x : PortInfo),
        x ∈ serial_port_list (.ok ports) ↔
          ∃ (p : SPortInfo) (m : Option String),
            ports[x.id]? = some p ∧ p.port_type = .usbPort m
            ∧ x.label = p.port_name ∧ x.desc = m.getD "unknown")
    ∧ serial_port_list (.ok [⟨"u0", .usbPort (some "Acme")⟩, ⟨"p1", .pciPort⟩,
        ⟨"u2", .usbPort none⟩])
        = [⟨0, "u0", "Acme"⟩, ⟨2, "u2", "unknown"⟩] := by
  refine ⟨fun e => rfl, ?_, rfl⟩
  intro ports x
  constructor
  · intro hx
    simp only [serial_port_list, List.mem_filterMap] at hx
    obtain ⟨⟨i, p⟩, hmem, hf⟩ := hx
    have hget : ports[i]? = some p := List.mk_mem_enum_iff_getElem?.mp hmem
    cases hpt : p.port_type with
    | usbPort m =>
      rw [hpt] at hf
      dsimp only at hf
      have hx := Option.some.inj hf
      refine ⟨p, m, ?_, hpt, ?_, ?_⟩
      · rw [← hx]; exact hget
      · rw [← hx]
      · rw [← hx]
    | pciPort => rw [hpt] at hf; cases hf
    | bluetoothPort => rw [hpt] at hf; cases hf
    | unknownPort => rw [hpt] at hf; cases hf
  · rintro ⟨p, m, hget, hpt, hlab, hdesc⟩
    simp only [serial_port_list, List.mem_filterMap]
    refine ⟨(x.id, p), List.mk_mem_enum_iff_getElem?.mpr hget, ?_⟩
    rw [hpt]
    dsimp only
    cases x with
    | mk id label desc =>
      simp only at hlab hdesc
      rw [hlab, hdesc]

/-- Witness: the C10 membership characterization applied to a concrete
enumeration with a non-USB port interleaved. -/
theorem C10_serial_port_list_total_witness :
    (⟨2, "u2", "unknown"⟩ : PortInfo) ∈ serial_port_list
      (.ok [⟨"u0", .usbPort (some "Acme")⟩, ⟨"p1", .pciPort⟩, ⟨"u2", .usbPort none⟩]) :=
  (C10_serial_port_list_total.2.1 _ _).mpr
    ⟨⟨"u2", .usbPort none⟩, none, rfl, rfl, rfl, rfl⟩

end OString
